import Mathlib

/-!
Verification of the megaton runtime mapping/handle subsystem.

The definitions below are a shallow embedding of the C++ sources:
- `src/runtime/src/exlaunch/source/exl/lib/util/sys/rw_pages.cpp`
  (`ForEachMemRange`, `RwPages::RwPages`, `RwPages::~RwPages`)
- `src/runtime/src/exlaunch/source/exl/lib/util/sys/cur_proc_handle.cpp`
  (`proc_handle::Get`)
- `src/runtime/src/exlaunch/source/exl/lib/util/sys/soc.hpp` (`InitSocType`)
- `src/runtime/src/exlaunch/source/exl/usersetting.hpp` (pool-size sanity checks)
- `src/runtime/src/cimpl/assert.cpp` (`megaton_format_panic_message`)
- the common header (src/unnamed/part_003): `ALIGN_UP`, `ALIGN_DOWN`, `PAGE_SIZE`

Machine integers are modelled as `Nat` with explicit `% 2^64` where the C
computation can wrap.  Kernel calls are modelled as explicit environment
parameters; a fatal `panic_`/`assert_` path is modelled as `Except.error`
or `Option.none`, so that a value is returned only on full success.
-/

set_option maxHeartbeats 1000000

namespace Megaton

/-- Constant `PAGE_SIZE` from the common header (src/unnamed/part_003 line 19): `0x1000`. -/
def PAGE_SIZE : Nat := 0x1000

/-- The size of the `uintptr_t` value space on the target (aarch64): `2^64`. -/
def UINTPTR_SIZE : Nat := 2 ^ 64

/-- Macro `ALIGN_UP(x, a)` from the common header (src/unnamed/part_003 line 12):
`(((uintptr_t)x) + (((uintptr_t)a)-1)) & ~(((uintptr_t)a)-1)`, for `1 ≤ a`.
The addition wraps modulo `2^64`; `~(a-1)` over 64 bits is
`(2^64 - 1) - (a - 1)`. -/
def ALIGN_UP (x a : Nat) : Nat :=
  ((x + (a - 1)) % UINTPTR_SIZE) &&& ((UINTPTR_SIZE - 1) - (a - 1))

/-- Macro `ALIGN_DOWN(x, a)` from the common header (src/unnamed/part_003 line 13):
`(uintptr_t)(x) & ~(((uintptr_t)(a)) - 1)`, for `1 ≤ a`. -/
def ALIGN_DOWN (x a : Nat) : Nat :=
  (x % UINTPTR_SIZE) &&& ((UINTPTR_SIZE - 1) - (a - 1))

/-! ### The kernel memory query (`svcQueryMemory`)

`svcQueryMemory` fills a `MemoryInfo` describing the kernel memory block
containing the queried address.  Only the `addr` and `size` fields are used
by `rw_pages.cpp`, so the model keeps exactly those. -/

/-- The `addr`/`size` part of the kernel `MemoryInfo` structure used by
`ForEachMemRange` in rw_pages.cpp. -/
structure MemBlock where
  addr : Nat
  size : Nat

/-- The sum `meminfo.addr + meminfo.size`, the end address of a queried block. -/
def blockEnd (b : MemBlock) : Nat := b.addr + b.size

/-- The kernel contract of `svcQueryMemory`: the returned block contains the
queried address. -/
def ValidQuery (query : Nat → MemBlock) : Prop :=
  ∀ a, (query a).addr ≤ a ∧ a < blockEnd (query a)

/-- The kernel contract that blocks partition the address space: querying any
address inside a returned block returns that same block. -/
def ConsistentQuery (query : Nat → MemBlock) : Prop :=
  ∀ a b, (query a).addr ≤ b → b < blockEnd (query a) → query b = query a

/-! ### `ForEachMemRange` (rw_pages.cpp lines 12-39)

The C++ is a `do { query; callback } while (blockEnd < end)` loop.  The model
returns the list of `(current_address, current_length, offset)` triples passed
to the callback, in order.  The recursion is fuelled: `none` models the loop
not having terminated within the given fuel (under the kernel contract the
fuel `length + 1` used by `ForEachMemRange` is proved sufficient). -/

/-- One loop iteration of `ForEachMemRange`, recursing on fuel.  `q` is the
address queried next (`meminfo.addr + meminfo.size` of the previous
iteration, initially `start_address`). -/
def forEachAux (query : Nat → MemBlock) (start stop : Nat) :
    Nat → Nat → Option (List (Nat × Nat × Nat))
  | 0, _ => none
  | fuel + 1, q =>
    let info := query q
    let offset := max info.addr start - start
    let current := start + offset
    let len := min stop (blockEnd info) - current
    if blockEnd info < stop then
      (forEachAux query start stop fuel (blockEnd info)).map ((current, len, offset) :: ·)
    else
      some [(current, len, offset)]

/-- Function `ForEachMemRange(callback, start_address, length)` from rw_pages.cpp:
the sequence of `(current_address, current_length, offset)` callback
invocations.  `end` is `start_address + length`. -/
def ForEachMemRange (query : Nat → MemBlock) (start length : Nat) :
    Option (List (Nat × Nat × Nat)) :=
  forEachAux query start (start + length) (length + 1) start

/-- Predicate `tilesFrom start pos stop calls`: the calls partition `[pos, stop)` into
consecutive intervals with no gap and no overlap, each call carrying its
offset from `start`. -/
def tilesFrom (start : Nat) : Nat → Nat → List (Nat × Nat × Nat) → Prop
  | pos, stop, [] => pos = stop
  | pos, stop, c :: rest =>
    c.1 = pos ∧ c.2.2 = pos - start ∧ tilesFrom start (pos + c.2.1) stop rest

/-- Unfolding equation for one iteration of `forEachAux`. -/
theorem forEachAux_succ (query : Nat → MemBlock) (start stop fuel q : Nat) :
    forEachAux query start stop (fuel + 1) q =
      if blockEnd (query q) < stop then
        (forEachAux query start stop fuel (blockEnd (query q))).map
          ((start + (max (query q).addr start - start),
            min stop (blockEnd (query q)) - (start + (max (query q).addr start - start)),
            max (query q).addr start - start) :: ·)
      else
        some [(start + (max (query q).addr start - start),
               min stop (blockEnd (query q)) - (start + (max (query q).addr start - start)),
               max (query q).addr start - start)] := rfl

theorem tilesFrom_le_stop {start : Nat} :
    ∀ {calls : List (Nat × Nat × Nat)} {pos stop : Nat},
      tilesFrom start pos stop calls → pos ≤ stop := by
  intro calls
  induction calls with
  | nil => intro pos stop h; exact h.le
  | cons c rest ih =>
    intro pos stop h
    have := ih h.2.2
    omega

theorem tilesFrom_cover {start : Nat} :
    ∀ {calls : List (Nat × Nat × Nat)} {pos stop : Nat},
      tilesFrom start pos stop calls →
      ∀ x, pos ≤ x → x < stop → ∃ c ∈ calls, c.1 ≤ x ∧ x < c.1 + c.2.1 := by
  intro calls
  induction calls with
  | nil => intro pos stop h x hx1 hx2; exact absurd (h ▸ hx2) (by omega)
  | cons c rest ih =>
    intro pos stop h x hx1 hx2
    obtain ⟨hc1, _, htail⟩ := h
    by_cases hx : x < pos + c.2.1
    · exact ⟨c, List.mem_cons_self c rest, by omega, by omega⟩
    · obtain ⟨d, hd, hd1, hd2⟩ := ih htail x (by omega) hx2
      exact ⟨d, List.mem_cons_of_mem c hd, hd1, hd2⟩

/-- Soundness of the block-partitioning walk under the kernel contract of
`svcQueryMemory`.  At every loop entry point `q` (the first being
`start`, later ones the end address of the previous block), the walk
terminates within the fuel, its calls tile `[q, stop)` with correct offsets,
each call is the intersection of the queried block with the requested range,
the underlying blocks are strictly increasing, and the walk exits exactly at
the first block whose end address reaches `stop`. -/
theorem forEachAux_sound (query : Nat → MemBlock)
    (hV : ValidQuery query) (hC : ConsistentQuery query)
    (start stop : Nat) :
    ∀ fuel q, stop + 1 ≤ q + fuel →
      (q = start ∧ start ≤ stop) ∨ ((query q).addr = q ∧ start ≤ q ∧ q < stop) →
      ∃ calls, forEachAux query start stop fuel q = some calls ∧
        tilesFrom start q stop calls ∧
        (∀ c ∈ calls, c.1 = max (query c.1).addr start ∧
          c.1 + c.2.1 = min stop (blockEnd (query c.1)) ∧ c.2.2 = c.1 - start) ∧
        List.Chain' (fun c d => (query c.1).addr < (query d.1).addr) calls ∧
        ∃ front last, calls = front ++ [last] ∧
          stop ≤ blockEnd (query last.1) ∧
          ∀ c ∈ front, blockEnd (query c.1) < stop := by
  intro fuel
  induction fuel with
  | zero =>
    intro q hfuel hinv
    exfalso
    rcases hinv with ⟨rfl, h⟩ | ⟨_, _, h⟩ <;> omega
  | succ fuel ih =>
    intro q hfuel hinv
    obtain ⟨hba, hbe⟩ := hV q
    have hqstart : start ≤ q := by rcases hinv with ⟨rfl, _⟩ | ⟨_, h, _⟩ <;> omega
    have hqstop : q ≤ stop := by rcases hinv with ⟨rfl, h⟩ | ⟨_, _, h⟩ <;> omega
    have hmax : max (query q).addr start = q := by
      rcases hinv with ⟨rfl, _⟩ | ⟨ha, hs, _⟩ <;> omega
    have hcur : start + (max (query q).addr start - start) = q := by omega
    have hoff : max (query q).addr start - start = q - start := by omega
    rw [forEachAux_succ, hcur, hoff]
    by_cases hguard : blockEnd (query q) < stop
    · -- the loop continues at the next block end
      have hq' : blockEnd (query q) > q := hbe
      have haddr' : (query (blockEnd (query q))).addr = blockEnd (query q) := by
        set q' := blockEnd (query q) with hq'def
        obtain ⟨h1, h2⟩ := hV q'
        rcases Nat.lt_or_ge (query q').addr q' with hlt | hge
        · exfalso
          have hm1 : query (q' - 1) = query q' := hC q' (q' - 1) (by omega) (by omega)
          have hm2 : query (q' - 1) = query q := hC q (q' - 1) (by omega) (by omega)
          have heq : query q' = query q := hm1 ▸ hm2
          have : blockEnd (query q') = q' := by rw [heq]
          omega
        · omega
      obtain ⟨calls', heq', htiles', hcalls', hchain', front', last', hdec', hlast', hfront'⟩ :=
        ih (blockEnd (query q)) (by omega) (Or.inr ⟨haddr', by omega, hguard⟩)
      rw [if_pos hguard, heq']
      refine ⟨_, rfl, ?_, ?_, ?_, ?_⟩
      · -- tiling
        refine ⟨rfl, rfl, ?_⟩
        have : q + (min stop (blockEnd (query q)) - q) = blockEnd (query q) := by omega
        rw [this]
        exact htiles'
      · -- each call is the intersection of its block with the range
        intro c hc
        rcases List.mem_cons.mp hc with rfl | hc'
        · refine ⟨by simpa using hmax.symm, ?_, by simp⟩
          show q + (min stop (blockEnd (query q)) - q) = min stop (blockEnd (query q))
          omega
        · exact hcalls' c hc'
      · -- blocks strictly increase
        rw [List.chain'_cons']
        refine ⟨?_, hchain'⟩
        intro b hb
        have hbhead : b.1 = blockEnd (query q) := by
          rcases calls' with _ | ⟨c', rest'⟩
          · simp at hb
          · simp at hb
            rw [← hb]
            exact htiles'.1
        show (query q).addr < (query b.1).addr
        rw [hbhead, haddr']
        omega
      · -- the walk exits exactly at the first block reaching the end
        refine ⟨(q, min stop (blockEnd (query q)) - q, q - start) :: front', last',
          by simp [hdec'], hlast', ?_⟩
        intro c hc
        rcases List.mem_cons.mp hc with rfl | hc'
        · simpa using hguard
        · exact hfront' c hc'
    · -- last block: its end reaches the requested end, the loop exits
      rw [if_neg hguard]
      refine ⟨_, rfl, ⟨rfl, rfl, ?_⟩, ?_, ?_, ?_⟩
      · show q + (min stop (blockEnd (query q)) - q) = stop
        omega
      · intro c hc
        rcases List.mem_cons.mp hc with rfl | hc'
        · refine ⟨by simpa using hmax.symm, ?_, by simp⟩
          show q + (min stop (blockEnd (query q)) - q) = min stop (blockEnd (query q))
          omega
        · simp at hc'
      · simp
      · refine ⟨[], _, rfl, ?_, by simp⟩
        show stop ≤ blockEnd (query q)
        omega

/-! ### Virtual memory model

The process address space is a partial map from virtual addresses to
physical addresses (`vmap`), plus the content of physical memory (`phys`).
`svcMapProcessMemory` makes the destination range alias the same physical
backing as the source range; it fails (kernel error, hence panic in the
caller) if the source range is not fully mapped. -/

structure Mem where
  vmap : Nat → Option Nat
  phys : Nat → Nat

/-- Reading a byte through the virtual address space: `none` when the
address is unmapped. -/
def readByte (m : Mem) (a : Nat) : Option Nat := (m.vmap a).map m.phys

/-- Model of `svcMapProcessMemory(rw, proc, ro, len)`: map `[rw, rw+len)` to
the physical backing of `[ro, ro+len)`. -/
def svcMapProcessMemory (m : Mem) (rwDest ro len : Nat) : Option Mem :=
  if (List.range len).all (fun i => (m.vmap (ro + i)).isSome) then
    some { m with
      vmap := fun a =>
        if rwDest ≤ a ∧ a < rwDest + len then m.vmap (ro + (a - rwDest)) else m.vmap a }
  else
    none

/-- The mapping callback of `RwPages::RwPages` (rw_pages.cpp lines 63-73)
folded over the walk's calls: for each `(address, size, offset)` it performs
`svcMapProcessMemory(alignedRw + offset, proc, address, size)`; any kernel
failure aborts (panic). -/
def mapAll (alignedRw : Nat) : Mem → List (Nat × Nat × Nat) → Option Mem
  | m, [] => some m
  | m, (address, size, offset) :: rest =>
    match svcMapProcessMemory m (alignedRw + offset) address size with
    | none => none
    | some m2 => mapAll alignedRw m2 rest

/-- Test `memcmp((void*)a, (void*)b, len) == 0` through the virtual address
space; reads of unmapped bytes (which would fault in C) also yield `false`. -/
def memcmpEq (m : Mem) (a b len : Nat) : Bool :=
  (List.range len).all (fun k =>
    match readByte m (a + k), readByte m (b + k) with
    | some x, some y => x == y
    | _, _ => false)

/-- The distinct fatal `panic_`/`assert_` sites of the subsystem. -/
inductive PanicReason where
  | queryMemoryFailed
  | mapProcessMemoryFailed
  | unmapProcessMemoryFailed
  | findAslrFailed
  | addReservationFailed
  | memcmpMismatch
  | ipcFailed
deriving DecidableEq

/-- The fields of `MemoryClaim` as used by rw_pages.cpp. -/
structure MemoryClaim where
  m_Ro : Nat
  m_Size : Nat
  m_Rw : Nat
  m_RwReserve : Nat

/-- The page-aligned base of an address (used for `aligned_ro`/`aligned_rw`). -/
def alignedRoOf (a : Nat) : Nat := a - a % PAGE_SIZE

/-- The page-aligned span covering `[ro, ro + size)` (rounding
`size + (ro - aligned_ro)` up to a page multiple). -/
def alignedSizeOf (ro size : Nat) : Nat :=
  (size + ro % PAGE_SIZE + (PAGE_SIZE - 1)) / PAGE_SIZE * PAGE_SIZE

/-- Modelled from the spec: the header `rw_pages.hpp` defining
`MemoryClaim`'s derived accessors is not among the sources; the spec says
`aligned_ro` is the page-aligned base of the requested read-execute range. -/
def MemoryClaim.GetAlignedRo (c : MemoryClaim) : Nat := alignedRoOf c.m_Ro

/-- Modelled from the spec: `aligned_rw` is the page-aligned base of the
derived read-write address. -/
def MemoryClaim.GetAlignedRw (c : MemoryClaim) : Nat := alignedRoOf c.m_Rw

/-- Modelled from the spec: `aligned_size` is the page-aligned span covering
the requested range `[ro, ro + size)`. -/
def MemoryClaim.GetAlignedSize (c : MemoryClaim) : Nat :=
  alignedSizeOf c.m_Ro c.m_Size

/-- Result of a successful `RwPages` construction: the final address space,
the constructed claim, and the `(address, size, offset)` arguments of the
map operations that were issued. -/
structure CtorResult where
  mem : Mem
  claim : MemoryClaim
  mapCalls : List (Nat × Nat × Nat)

/-- Constructor `RwPages::RwPages(ro, size)` (rw_pages.cpp lines 41-80).  The kernel
responses that the constructor consumes are parameters: `query` for
`svcQueryMemory`, `alignedRw` for `virtmemFindAslr` (`0` = failure), and
`reserveOk` for `virtmemAddReservation`.  Every `assert_`/`panic_` site is
an `Except.error`; `.queryMemoryFailed` also covers the walk not finishing
within its fuel, which is proved impossible under the kernel contract. -/
def RwPagesCtor (memIn : Mem) (query : Nat → MemBlock) (alignedRw : Nat)
    (reserveOk : Bool) (ro size : Nat) : Except PanicReason CtorResult :=
  let claim0 : MemoryClaim := { m_Ro := ro, m_Size := size, m_Rw := 0, m_RwReserve := 0 }
  if alignedRw = 0 then .error .findAslrFailed
  else if reserveOk = false then .error .addReservationFailed
  else
    match ForEachMemRange query claim0.GetAlignedRo claim0.GetAlignedSize with
    | none => .error .queryMemoryFailed
    | some calls =>
      match mapAll alignedRw memIn calls with
      | none => .error .mapProcessMemoryFailed
      | some mem2 =>
        let rwAddr := alignedRw + (ro - claim0.GetAlignedRo)
        if memcmpEq mem2 ro rwAddr size then
          .ok { mem := mem2,
                claim := { m_Ro := ro, m_Size := size, m_Rw := rwAddr,
                           m_RwReserve := alignedRw },
                mapCalls := calls }
        else .error .memcmpMismatch

/-- Soundness of the mapping fold over a tiling call list: it succeeds, the
mirror range `[alignedRw + (pos - s), alignedRw + (stop - s))` aliases the
source range `[pos, stop)`, and nothing else changes.  `hsep` separates the
whole mirror target `[alignedRw, alignedRw + (stop - s))` from the source
span `[s, stop)`. -/
theorem mapAll_sound (alignedRw s stop : Nat)
    (hsep : stop ≤ alignedRw ∨ alignedRw + (stop - s) ≤ s) :
    ∀ (calls : List (Nat × Nat × Nat)) (pos : Nat) (m : Mem), s ≤ pos →
      tilesFrom s pos stop calls →
      (∀ a, pos ≤ a → a < stop → (m.vmap a).isSome) →
      ∃ m2, mapAll alignedRw m calls = some m2 ∧
        (∀ j, pos - s ≤ j → j < stop - s → m2.vmap (alignedRw + j) = m.vmap (s + j)) ∧
        (∀ a, a < alignedRw + (pos - s) ∨ alignedRw + (stop - s) ≤ a →
          m2.vmap a = m.vmap a) ∧
        m2.phys = m.phys := by
  intro calls
  induction calls with
  | nil =>
    intro pos m hspos htiles hmapped
    refine ⟨m, rfl, ?_, fun a _ => rfl, rfl⟩
    intro j hj1 hj2
    have : pos = stop := htiles
    omega
  | cons c rest ih =>
    intro pos m hspos htiles hmapped
    obtain ⟨address, size, offset⟩ := c
    obtain ⟨hc1, hc2, htail⟩ := htiles
    simp only at hc1 hc2 htail
    rw [hc1]
    subst hc2
    have hposl : pos + size ≤ stop := tilesFrom_le_stop htail
    -- the head map operation succeeds
    have hmapable : (List.range size).all (fun i => (m.vmap (pos + i)).isSome) = true := by
      rw [List.all_eq_true]
      intro i hi
      rw [List.mem_range] at hi
      exact hmapped (pos + i) (by omega) (by omega)
    have hstep : svcMapProcessMemory m (alignedRw + (pos - s)) pos size =
        some { m with
          vmap := fun a =>
            if alignedRw + (pos - s) ≤ a ∧ a < alignedRw + (pos - s) + size then
              m.vmap (pos + (a - (alignedRw + (pos - s))))
            else m.vmap a } := by
      rw [svcMapProcessMemory, if_pos hmapable]
    set m1 : Mem := { m with
      vmap := fun a =>
        if alignedRw + (pos - s) ≤ a ∧ a < alignedRw + (pos - s) + size then
          m.vmap (pos + (a - (alignedRw + (pos - s))))
        else m.vmap a } with hm1
    -- the sources of the remaining calls are untouched by the head map
    have hsrc : ∀ a, pos + size ≤ a → a < stop → m1.vmap a = m.vmap a := by
      intro a ha1 ha2
      show (if alignedRw + (pos - s) ≤ a ∧ a < alignedRw + (pos - s) + size then
        m.vmap (pos + (a - (alignedRw + (pos - s)))) else m.vmap a) = m.vmap a
      rw [if_neg]
      omega
    obtain ⟨m2, hrec, hwin, hout, hphys⟩ := ih (pos + size) m1 (by omega) htail
      (fun a ha1 ha2 => by rw [hsrc a ha1 ha2]; exact hmapped a (by omega) ha2)
    refine ⟨m2, ?_, ?_, ?_, by rw [hphys]⟩
    · show (match svcMapProcessMemory m (alignedRw + (pos - s)) pos size with
        | none => none
        | some m2 => mapAll alignedRw m2 rest) = some m2
      rw [hstep]
      exact hrec
    · -- the mirror window aliases the source span
      intro j hj1 hj2
      by_cases hjhead : j < pos - s + size
      · have houtj : m2.vmap (alignedRw + j) = m1.vmap (alignedRw + j) :=
          hout (alignedRw + j) (by omega)
        rw [houtj]
        show (if alignedRw + (pos - s) ≤ alignedRw + j ∧
            alignedRw + j < alignedRw + (pos - s) + size then
          m.vmap (pos + (alignedRw + j - (alignedRw + (pos - s)))) else
          m.vmap (alignedRw + j)) = m.vmap (s + j)
        rw [if_pos (by omega)]
        congr 1
        omega
      · have hwj : m2.vmap (alignedRw + j) = m1.vmap (s + j) :=
          hwin j (by omega) hj2
        rw [hwj]
        show (if alignedRw + (pos - s) ≤ s + j ∧
            s + j < alignedRw + (pos - s) + size then
          m.vmap (pos + (s + j - (alignedRw + (pos - s)))) else
          m.vmap (s + j)) = m.vmap (s + j)
        rw [if_neg]
        omega
    · -- everything outside the mirror window is untouched
      intro a ha
      have h2 : m2.vmap a = m1.vmap a := hout a (by omega)
      rw [h2]
      show (if alignedRw + (pos - s) ≤ a ∧ a < alignedRw + (pos - s) + size then
        m.vmap (pos + (a - (alignedRw + (pos - s)))) else m.vmap a) = m.vmap a
      rw [if_neg]
      omega

theorem alignedRoOf_le (a : Nat) : alignedRoOf a ≤ a := by
  unfold alignedRoOf
  omega

theorem sub_alignedRoOf (a : Nat) : a - alignedRoOf a = a % PAGE_SIZE := by
  unfold alignedRoOf PAGE_SIZE
  omega

theorem le_alignedSizeOf (ro size : Nat) :
    size + ro % PAGE_SIZE ≤ alignedSizeOf ro size := by
  unfold alignedSizeOf PAGE_SIZE
  omega

/-- Unfolding of the constructor on the success path, given the outcomes of
the walk and of the mapping fold. -/
theorem RwPagesCtor_eq (memIn : Mem) (query : Nat → MemBlock) (alignedRw : Nat)
    (ro size : Nat) (hne : alignedRw ≠ 0)
    {calls : List (Nat × Nat × Nat)}
    (hwalk : ForEachMemRange query (alignedRoOf ro) (alignedSizeOf ro size) = some calls)
    {m2 : Mem} (hfold : mapAll alignedRw memIn calls = some m2) :
    RwPagesCtor memIn query alignedRw true ro size =
      if memcmpEq m2 ro (alignedRw + (ro - alignedRoOf ro)) size then
        .ok ⟨m2, ⟨ro, size, alignedRw + (ro - alignedRoOf ro), alignedRw⟩, calls⟩
      else .error .memcmpMismatch := by
  have hwalk2 : ForEachMemRange query
      (MemoryClaim.GetAlignedRo ⟨ro, size, 0, 0⟩)
      (MemoryClaim.GetAlignedSize ⟨ro, size, 0, 0⟩) = some calls := hwalk
  unfold RwPagesCtor
  rw [if_neg hne]
  simp only [Bool.true_eq_false, if_false, hwalk2, hfold]
  rfl

/-- Success of the constructor under the kernel contracts: a valid and
consistent memory query, a fully mapped aligned source span, a nonzero
reserved mirror base disjoint from the source span.  The result aliases the
source span at the mirror base and leaves every other address unchanged. -/
theorem RwPagesCtor_ok (memIn : Mem) (query : Nat → MemBlock) (alignedRw : Nat)
    (ro size : Nat)
    (hV : ValidQuery query) (hC : ConsistentQuery query)
    (hne : alignedRw ≠ 0)
    (hmapped : ∀ a, alignedRoOf ro ≤ a → a < alignedRoOf ro + alignedSizeOf ro size →
      (memIn.vmap a).isSome)
    (hsep : alignedRoOf ro + alignedSizeOf ro size ≤ alignedRw ∨
            alignedRw + alignedSizeOf ro size ≤ alignedRoOf ro) :
    ∃ r, RwPagesCtor memIn query alignedRw true ro size = .ok r ∧
      r.claim.m_Ro = ro ∧ r.claim.m_Size = size ∧
      r.claim.m_Rw = alignedRw + (ro - alignedRoOf ro) ∧
      r.claim.m_RwReserve = alignedRw ∧
      r.mem.phys = memIn.phys ∧
      (∀ j, j < alignedSizeOf ro size →
        r.mem.vmap (alignedRw + j) = memIn.vmap (alignedRoOf ro + j)) ∧
      (∀ a, a < alignedRw ∨ alignedRw + alignedSizeOf ro size ≤ a →
        r.mem.vmap a = memIn.vmap a) := by
  set s := alignedRoOf ro with hs
  set L := alignedSizeOf ro size with hL
  have hsro : s ≤ ro := alignedRoOf_le ro
  have hrosub : ro - s = ro % PAGE_SIZE := sub_alignedRoOf ro
  have hsizeL : size + ro % PAGE_SIZE ≤ L := le_alignedSizeOf ro size
  obtain ⟨calls, hwalk, htiles, hcalls, hchain, _⟩ :=
    forEachAux_sound query hV hC s (s + L) (L + 1) s (by omega)
      (Or.inl ⟨rfl, by omega⟩)
  obtain ⟨m2, hfold, hwin, hout, hphys⟩ :=
    mapAll_sound alignedRw s (s + L) (by omega) calls s memIn le_rfl htiles
      (fun a h1 h2 => hmapped a h1 h2)
  have hwin0 : ∀ j, j < L → m2.vmap (alignedRw + j) = memIn.vmap (s + j) := by
    intro j hj
    have := hwin j (by omega) (by omega)
    exact this
  have hout0 : ∀ a, a < alignedRw ∨ alignedRw + L ≤ a → m2.vmap a = memIn.vmap a := by
    intro a ha
    exact hout a (by omega)
  have hmemcmp : memcmpEq m2 ro (alignedRw + (ro - s)) size = true := by
    rw [memcmpEq, List.all_eq_true]
    intro k hk
    rw [List.mem_range] at hk
    have hro1 : m2.vmap (ro + k) = memIn.vmap (ro + k) := by
      apply hout0
      omega
    have hrw1 : m2.vmap (alignedRw + (ro - s) + k) = memIn.vmap (ro + k) := by
      have h := hwin0 (ro - s + k) (by omega)
      have he1 : alignedRw + (ro - s) + k = alignedRw + (ro - s + k) := by omega
      have he2 : s + (ro - s + k) = ro + k := by omega
      rw [he1, h, he2]
    obtain ⟨v, hv⟩ := Option.isSome_iff_exists.mp (hmapped (ro + k) (by omega) (by omega))
    show (match readByte m2 (ro + k), readByte m2 (alignedRw + (ro - s) + k) with
      | some x, some y => x == y
      | _, _ => false) = true
    rw [readByte, readByte, hro1, hrw1, hv, hphys]
    simp
  have hwalk' : ForEachMemRange query s L = some calls := hwalk
  refine ⟨⟨m2, ⟨ro, size, alignedRw + (ro - s), alignedRw⟩, calls⟩, ?_,
    rfl, rfl, rfl, rfl, hphys, hwin0, hout0⟩
  rw [RwPagesCtor_eq memIn query alignedRw ro size hne hwalk' hfold, if_pos hmemcmp]

/-! ### `RwPages::~RwPages` (rw_pages.cpp lines 88-115) -/

/-- The externally visible operations a destructor run performs, in the
order flush, invalidate, unmap, release.  `unmapCalls` records the
`(rw, ro, size)` arguments of each `svcUnmapProcessMemory` call. -/
structure DtorEffects where
  dcacheFlushes : List (Nat × Nat)
  icacheInvalidates : List (Nat × Nat)
  unmapCalls : List (Nat × Nat × Nat)
  reservationReleases : List Nat

/-- Model of `svcUnmapProcessMemory(rw, proc, ro, len)`: unmap
`[rw, rw+len)`; fails (kernel error, hence panic in the caller) if the
range is not fully mapped. -/
def svcUnmapProcessMemory (m : Mem) (rwDest ro len : Nat) : Option Mem :=
  if (List.range len).all (fun i => (m.vmap (rwDest + i)).isSome) then
    some { m with
      vmap := fun a => if rwDest ≤ a ∧ a < rwDest + len then none else m.vmap a }
  else
    none

/-- The unmapping callback of `RwPages::~RwPages` (rw_pages.cpp lines
101-111) folded over the walk's calls: for each `(address, size, offset)`
it performs `svcUnmapProcessMemory(alignedRw + offset, proc, address, size)`. -/
def unmapAll (alignedRw : Nat) : Mem → List (Nat × Nat × Nat) → Option Mem
  | m, [] => some m
  | m, (address, size, offset) :: rest =>
    match svcUnmapProcessMemory m (alignedRw + offset) address size with
    | none => none
    | some m2 => unmapAll alignedRw m2 rest

/-- Destructor `RwPages::~RwPages` (rw_pages.cpp lines 88-115): an early return when
`m_Owner` is false, otherwise cache flush of the rw view, instruction-cache
invalidate of the ro view, the per-block unmap walk, and the release of the
reservation.  `none` is the fatal panic path (kernel failure). -/
def RwPagesDtor (owner : Bool) (claim : MemoryClaim) (query : Nat → MemBlock)
    (m : Mem) : Option (Mem × DtorEffects) :=
  if owner = false then
    some (m, ⟨[], [], [], []⟩)
  else
    match ForEachMemRange query claim.GetAlignedRo claim.GetAlignedSize with
    | none => none
    | some calls =>
      (unmapAll claim.GetAlignedRw m calls).map (fun m2 =>
        (m2,
          { dcacheFlushes := [(claim.m_Rw, claim.m_Size)],
            icacheInvalidates := [(claim.m_Ro, claim.m_Size)],
            unmapCalls := calls.map (fun c => (claim.GetAlignedRw + c.2.2, c.1, c.2.1)),
            reservationReleases := [claim.m_RwReserve] }))

/-! ### Concrete kernel layouts used to instantiate the theorems -/

/-- A concrete kernel layout partitioning the address space into
single pages. -/
def pageQuery : Nat → MemBlock :=
  fun a => ⟨a / PAGE_SIZE * PAGE_SIZE, PAGE_SIZE⟩

theorem pageQuery_valid : ValidQuery pageQuery := by
  intro a
  show a / PAGE_SIZE * PAGE_SIZE ≤ a ∧ a < a / PAGE_SIZE * PAGE_SIZE + PAGE_SIZE
  unfold PAGE_SIZE
  omega

theorem pageQuery_consistent : ConsistentQuery pageQuery := by
  intro a b h1 h2
  have h1' : a / PAGE_SIZE * PAGE_SIZE ≤ b := h1
  have h2' : b < a / PAGE_SIZE * PAGE_SIZE + PAGE_SIZE := h2
  show MemBlock.mk (b / PAGE_SIZE * PAGE_SIZE) PAGE_SIZE =
    MemBlock.mk (a / PAGE_SIZE * PAGE_SIZE) PAGE_SIZE
  have hdiv : b / PAGE_SIZE = a / PAGE_SIZE := by
    unfold PAGE_SIZE at h1' h2' ⊢
    omega
  rw [hdiv]

/-- The backing layout of the spec's 3-page scenario: the queried range
starts at `0x10000` and is reported as a `0x2000` block followed by a
`0x1000` block. -/
def scenarioQuery : Nat → MemBlock :=
  fun a => if a < 0x12000 then ⟨0x10000, 0x2000⟩ else ⟨0x12000, 0x1000⟩

/-- A concrete address space with the source page `[0x10000, 0x11000)`
mapped one-to-one to physical memory and everything else unmapped. -/
def roPageMem : Mem :=
  { vmap := fun a => if 0x10000 ≤ a ∧ a < 0x11000 then some a else none,
    phys := fun p => p % 256 }

/-- A concrete address space with both the source page `[0x10000, 0x11000)`
and the mirror page `[0x20000, 0x21000)` mapped. -/
def dualPageMem : Mem :=
  { vmap := fun a =>
      if (0x10000 ≤ a ∧ a < 0x11000) ∨ (0x20000 ≤ a ∧ a < 0x21000) then some a
      else none,
    phys := fun p => p % 256 }

/-! ### `proc_handle::Get` (cur_proc_handle.cpp lines 93-103) -/

/-- Constant `INVALID_HANDLE` from the libnx interface: the handle value `0`. -/
def INVALID_HANDLE : Nat := 0

/-- The kernel responses consumed by handle acquisition: the result of the
`svcGetInfo(InfoType_MesosphereCurrentProcess)` fast path (`none` models
`R_FAILED`), and the handle delivered into `s_Handle` by the IPC-trick
fallback (`none` models a kernel failure inside the fallback, which
panics). -/
structure HandleEnv where
  mesosphere : Option Nat
  ipc : Option Nat

/-- Function `proc_handle::Get` (cur_proc_handle.cpp lines 93-103) as a function of
the cached `s_Handle` state.  On success it returns
`(returned handle, new s_Handle, fast-path runs, fallback runs)`, the two
counters recording how often `GetViaMesosphere` and `GetViaIpcTrick` were
executed during the call. -/
def procHandleGet (env : HandleEnv) (s_Handle : Nat) :
    Except PanicReason (Nat × Nat × Nat × Nat) :=
  if s_Handle = INVALID_HANDLE then
    match env.mesosphere with
    | some h => .ok (h, h, 1, 0)
    | none =>
      match env.ipc with
      | some h => .ok (h, h, 1, 1)
      | none => .error .ipcFailed
  else
    .ok (s_Handle, s_Handle, 0, 0)

/-! ### `InitSocType` (soc.hpp lines 17-35) -/

/-- The `SplHardwareType` enumerator values from the libnx interface. -/
def SplHardwareType_Icosa : Nat := 0

def SplHardwareType_Copper : Nat := 1

def SplHardwareType_Hoag : Nat := 2

def SplHardwareType_Iowa : Nat := 3

def SplHardwareType_Calcio : Nat := 4

def SplHardwareType_Aula : Nat := 5

inductive SocType where
  | Erista
  | Mariko
deriving DecidableEq

/-- Function `InitSocType` (soc.hpp lines 17-35): the switch over the hardware-type
enumerator.  `none` models the `unreachable_()` fatal path of the `default`
case. -/
def InitSocType (hwtype : Nat) : Option SocType :=
  if hwtype = SplHardwareType_Icosa ∨ hwtype = SplHardwareType_Copper then
    some .Erista
  else if hwtype = SplHardwareType_Hoag ∨ hwtype = SplHardwareType_Iowa ∨
      hwtype = SplHardwareType_Calcio ∨ hwtype = SplHardwareType_Aula then
    some .Mariko
  else
    none

/-! ### The pool-size sanity checks (usersetting.hpp lines 38-41) -/

/-- The conjunction of the two `static_assert`s of `exl::setting`
(usersetting.hpp lines 38-41), exactly as written in the source: the second
assertion compares `ALIGN_UP(InlinePoolSize, PAGE_SIZE)` against `JitSize`. -/
def sanityChecksHold (jitSize inlinePoolSize : Nat) : Bool :=
  (ALIGN_UP jitSize PAGE_SIZE == jitSize) &&
  (ALIGN_UP inlinePoolSize PAGE_SIZE == jitSize)

/-- The sanity check as the spec states it: each pool size is a multiple of
the platform page size. -/
def sanityChecksSpec (jitSize inlinePoolSize : Nat) : Bool :=
  (ALIGN_UP jitSize PAGE_SIZE == jitSize) &&
  (ALIGN_UP inlinePoolSize PAGE_SIZE == inlinePoolSize)

/-! ### `megaton_format_panic_message` (assert.cpp lines 4-10) -/

/-- Decimal rendering of a `u32` printed with the C `%d` conversion
(signed 32-bit reinterpretation). -/
def decimalOfU32 (line : Nat) : List Char :=
  if line % 2 ^ 32 < 2 ^ 31 then
    (toString (line % 2 ^ 32)).toList
  else
    '-' :: (toString (2 ^ 32 - line % 2 ^ 32)).toList

/-- Function `megaton_format_panic_message` (assert.cpp lines 4-10): `snprintf` of
the format "Panic at %s:%d:\n  %s" into the static 1024-byte
`PANIC_FMT_BUFFER`, which writes at most 1023 characters plus a
terminating null (the code additionally forces a null at index 1023).
The model returns the bytes of the resulting C string in the buffer,
terminator included. -/
def megaton_format_panic_message (file : List Char) (line : Nat)
    (msg : List Char) : List Nat :=
  let header := "Panic at "
  let s := (header.toList ++ file ++ [':'] ++ decimalOfU32 line ++
    [':', '\n', ' ', ' '] ++ msg).map Char.toNat
  s.take 1023 ++ [0]

/-! ## Claim theorems -/

/-- C1: for every starting range and every covering block sequence returned
by the memory query, `ForEachMemRange` invokes its callback exactly once per
block intersecting the range, the `(address, length, offset)` intersections
tile the full requested range with no gaps and no overlaps, and the walk
terminates exactly when the end address of the last queried block reaches
the requested range's end; in particular, a 3-page range reported as blocks
of sizes `0x2000` and `0x1000` yields exactly two calls with lengths
`0x2000`, `0x1000` at offsets `0x0`, `0x2000`. -/
theorem forEachMemRange_partition_spec :
    (∀ (query : Nat → MemBlock) (start len : Nat),
      ValidQuery query → ConsistentQuery query →
      ∃ calls, ForEachMemRange query start len = some calls ∧
        tilesFrom start start (start + len) calls ∧
        (∀ c ∈ calls, c.1 = max (query c.1).addr start ∧
          c.1 + c.2.1 = min (start + len) (blockEnd (query c.1)) ∧
          c.2.2 = c.1 - start) ∧
        List.Chain' (fun c d => (query c.1).addr < (query d.1).addr) calls ∧
        (∀ x, start ≤ x → x < start + len →
          ∃ c ∈ calls, c.1 ≤ x ∧ x < c.1 + c.2.1 ∧ query x = query c.1) ∧
        (∃ front lastCall, calls = front ++ [lastCall] ∧
          start + len ≤ blockEnd (query lastCall.1) ∧
          ∀ c ∈ front, blockEnd (query c.1) < start + len)) ∧
    ForEachMemRange scenarioQuery 0x10000 0x3000 =
      some [(0x10000, 0x2000, 0x0), (0x12000, 0x1000, 0x2000)] := by
  constructor
  · intro query start len hV hC
    obtain ⟨calls, heq, htiles, hcalls, hchain, hfront⟩ :=
      forEachAux_sound query hV hC start (start + len) (len + 1) start (by omega)
        (Or.inl ⟨rfl, by omega⟩)
    refine ⟨calls, heq, htiles, hcalls, hchain, ?_, hfront⟩
    intro x hx1 hx2
    obtain ⟨c, hc, hcx1, hcx2⟩ := tilesFrom_cover htiles x hx1 hx2
    obtain ⟨hcc1, hcc2, _⟩ := hcalls c hc
    exact ⟨c, hc, hcx1, hcx2, hC c.1 x (by omega) (by omega)⟩
  · decide

/-- Witness for C1 at the concrete single-page kernel layout. -/
theorem forEachMemRange_partition_spec_witness :
    ∃ calls, ForEachMemRange pageQuery 0x10000 0x3000 = some calls ∧
      tilesFrom 0x10000 0x10000 (0x10000 + 0x3000) calls ∧
      (∀ c ∈ calls, c.1 = max (pageQuery c.1).addr 0x10000 ∧
        c.1 + c.2.1 = min (0x10000 + 0x3000) (blockEnd (pageQuery c.1)) ∧
        c.2.2 = c.1 - 0x10000) ∧
      List.Chain' (fun c d => (pageQuery c.1).addr < (pageQuery d.1).addr) calls ∧
      (∀ x, 0x10000 ≤ x → x < 0x10000 + 0x3000 →
        ∃ c ∈ calls, c.1 ≤ x ∧ x < c.1 + c.2.1 ∧ pageQuery x = pageQuery c.1) ∧
      (∃ front lastCall, calls = front ++ [lastCall] ∧
        0x10000 + 0x3000 ≤ blockEnd (pageQuery lastCall.1) ∧
        ∀ c ∈ front, blockEnd (pageQuery c.1) < 0x10000 + 0x3000) :=
  forEachMemRange_partition_spec.1 pageQuery 0x10000 0x3000
    pageQuery_valid pageQuery_consistent

/-- C10: the loop body of `ForEachMemRange` runs before the termination
test, so the walk performs at least one query and at least one callback for
every length, and a request of length `0` still issues exactly one callback
of length `0`; consequently a mirror construction of size `0` still issues
one map call of length `0`. -/
theorem forEachMemRange_at_least_once :
    (∀ (query : Nat → MemBlock) (start len : Nat),
      ValidQuery query → ConsistentQuery query →
      ∃ calls, ForEachMemRange query start len = some calls ∧ 1 ≤ calls.length) ∧
    (∀ (query : Nat → MemBlock) (start : Nat),
      (query start).addr ≤ start → start < blockEnd (query start) →
      ForEachMemRange query start 0 = some [(start, 0, 0)]) ∧
    (∃ r, RwPagesCtor roPageMem pageQuery 0x20000 true 0x10000 0 = .ok r ∧
      r.mapCalls = [(0x10000, 0, 0)]) := by
  refine ⟨?_, ?_, ?_⟩
  · intro query start len hV hC
    obtain ⟨calls, heq, _, _, _, front, lastCall, hdec, _, _⟩ :=
      forEachAux_sound query hV hC start (start + len) (len + 1) start (by omega)
        (Or.inl ⟨rfl, by omega⟩)
    refine ⟨calls, heq, ?_⟩
    rw [hdec]
    simp
  · intro query start haddr hend
    show forEachAux query start (start + 0) 1 start = some [(start, 0, 0)]
    rw [forEachAux_succ, if_neg (by omega)]
    have h1 : max (query start).addr start = start := by omega
    rw [h1]
    have h2 : start + (start - start) = start := by omega
    have h3 : min (start + 0) (blockEnd (query start)) - start = 0 := by omega
    have h4 : start - start = 0 := by omega
    rw [h2, h3, h4]
  · exact ⟨_, rfl, rfl⟩

/-- Witness for C10 at the concrete single-page kernel layout. -/
theorem forEachMemRange_at_least_once_witness :
    (∃ calls, ForEachMemRange pageQuery 0x10000 0x3000 = some calls ∧
      1 ≤ calls.length) ∧
    ForEachMemRange pageQuery 0x10000 0 = some [(0x10000, 0, 0)] :=
  ⟨forEachMemRange_at_least_once.1 pageQuery 0x10000 0x3000
      pageQuery_valid pageQuery_consistent,
   forEachMemRange_at_least_once.2.1 pageQuery 0x10000 (by decide) (by decide)⟩

/-- C2: for every valid `(ro, size)` whose aligned span is fully mapped
(no unmapped gap), the constructor succeeds and the bytes at
`[ro, ro+size)` equal the bytes at `[rw, rw+size)` of the returned mirror;
moreover every value the constructor ever returns has passed the
byte-equality check, i.e. a mismatch (like every kernel failure) takes the
fatal panic path instead of returning a value, so a `MemoryClaim` is never
observed partially constructed. -/
theorem rwPages_ctor_mirror_equal :
    (∀ (memIn : Mem) (query : Nat → MemBlock) (alignedRw ro size : Nat),
      ValidQuery query → ConsistentQuery query → alignedRw ≠ 0 →
      (∀ a, alignedRoOf ro ≤ a → a < alignedRoOf ro + alignedSizeOf ro size →
        (memIn.vmap a).isSome) →
      (alignedRoOf ro + alignedSizeOf ro size ≤ alignedRw ∨
        alignedRw + alignedSizeOf ro size ≤ alignedRoOf ro) →
      ∃ r, RwPagesCtor memIn query alignedRw true ro size = .ok r ∧
        r.claim.m_Rw = alignedRw + (ro - alignedRoOf ro) ∧
        ∀ k, k < size →
          readByte r.mem (ro + k) = readByte r.mem (r.claim.m_Rw + k) ∧
          (readByte r.mem (ro + k)).isSome) ∧
    (∀ (memIn : Mem) (query : Nat → MemBlock) (alignedRw : Nat)
        (reserveOk : Bool) (ro size : Nat) (r : CtorResult),
      RwPagesCtor memIn query alignedRw reserveOk ro size = .ok r →
      memcmpEq r.mem r.claim.m_Ro r.claim.m_Rw r.claim.m_Size = true) := by
  constructor
  · intro memIn query alignedRw ro size hV hC hne hmapped hsep
    obtain ⟨r, hok, hro, hsize, hrw, hreserve, hphys, hwin, hout⟩ :=
      RwPagesCtor_ok memIn query alignedRw ro size hV hC hne hmapped hsep
    refine ⟨r, hok, hrw, ?_⟩
    intro k hk
    have hsro := alignedRoOf_le ro
    have hrosub := sub_alignedRoOf ro
    have hsz := le_alignedSizeOf ro size
    have h1 : r.mem.vmap (ro + k) = memIn.vmap (ro + k) := by
      apply hout
      rcases hsep with h | h
      · left; omega
      · right; omega
    have h2 : r.mem.vmap (r.claim.m_Rw + k) = memIn.vmap (ro + k) := by
      have h := hwin (ro - alignedRoOf ro + k) (by omega)
      have e1 : r.claim.m_Rw + k = alignedRw + (ro - alignedRoOf ro + k) := by
        rw [hrw]; omega
      have e2 : alignedRoOf ro + (ro - alignedRoOf ro + k) = ro + k := by omega
      rw [e1, h, e2]
    refine ⟨by rw [readByte, readByte, h1, h2], ?_⟩
    rw [readByte, h1]
    obtain ⟨v, hv⟩ := Option.isSome_iff_exists.mp
      (hmapped (ro + k) (by omega) (by omega))
    rw [hv]
    rfl
  · intro memIn query alignedRw reserveOk ro size r h
    unfold RwPagesCtor at h
    split at h
    · exact absurd h (by simp)
    · split at h
      · exact absurd h (by simp)
      · simp only [MemoryClaim.GetAlignedRo, MemoryClaim.GetAlignedSize] at h
        split at h
        · exact absurd h (by simp)
        · split at h
          · exact absurd h (by simp)
          · split at h
            · rename_i hmem
              injection h with h2
              subst h2
              exact hmem
            · exact absurd h (by simp)

/-- Witness for C2: a concrete 4-byte mirror over `[0x10000, 0x10004)`
with the mirror reservation at `0x20000`. -/
theorem rwPages_ctor_mirror_equal_witness :
    ∃ r, RwPagesCtor roPageMem pageQuery 0x20000 true 0x10000 4 = .ok r ∧
      r.claim.m_Rw = 0x20000 + (0x10000 - alignedRoOf 0x10000) ∧
      ∀ k, k < 4 →
        readByte r.mem (0x10000 + k) = readByte r.mem (r.claim.m_Rw + k) ∧
        (readByte r.mem (0x10000 + k)).isSome :=
  rwPages_ctor_mirror_equal.1 roPageMem pageQuery 0x20000 0x10000 4
    pageQuery_valid pageQuery_consistent (by decide)
    (by
      intro a h1 h2
      have e1 : alignedRoOf 0x10000 = 0x10000 := by decide
      have e2 : alignedSizeOf 0x10000 4 = 0x1000 := by decide
      rw [e1] at h1
      rw [e1, e2] at h2
      show (if 0x10000 ≤ a ∧ a < 0x11000 then some a else none).isSome = true
      rw [if_pos (by omega)]
      rfl)
    (by
      left
      have e1 : alignedRoOf 0x10000 = 0x10000 := by decide
      have e2 : alignedSizeOf 0x10000 4 = 0x1000 := by decide
      rw [e1, e2]
      omega)

/-- C3: the derived rw address preserves the intra-page offset of `ro`
(`rw = aligned_rw + (ro - aligned_ro)`, hence `rw % page = ro % page`
whenever the reserved mirror base is page-aligned), and for every
`k < size` the mirror counterpart of the byte at source offset `k` is the
byte at offset `k` from the mirror base (the two virtual addresses alias
the same physical address). -/
theorem rwPages_ctor_offset_preserving
    (memIn : Mem) (query : Nat → MemBlock) (alignedRw ro size : Nat)
    (hV : ValidQuery query) (hC : ConsistentQuery query) (hne : alignedRw ≠ 0)
    (hmapped : ∀ a, alignedRoOf ro ≤ a →
      a < alignedRoOf ro + alignedSizeOf ro size → (memIn.vmap a).isSome)
    (hsep : alignedRoOf ro + alignedSizeOf ro size ≤ alignedRw ∨
      alignedRw + alignedSizeOf ro size ≤ alignedRoOf ro)
    (halign : alignedRw % PAGE_SIZE = 0) :
    ∃ r, RwPagesCtor memIn query alignedRw true ro size = .ok r ∧
      r.claim.m_Rw = alignedRw + (ro - alignedRoOf ro) ∧
      r.claim.m_Rw % PAGE_SIZE = ro % PAGE_SIZE ∧
      ∀ k, k < size → r.mem.vmap (r.claim.m_Rw + k) = memIn.vmap (ro + k) := by
  obtain ⟨r, hok, hro, hsize, hrw, hreserve, hphys, hwin, hout⟩ :=
    RwPagesCtor_ok memIn query alignedRw ro size hV hC hne hmapped hsep
  have hsro := alignedRoOf_le ro
  have hrosub := sub_alignedRoOf ro
  have hsz := le_alignedSizeOf ro size
  refine ⟨r, hok, hrw, ?_, ?_⟩
  · rw [hrw, hrosub]
    have hlt : ro % PAGE_SIZE < PAGE_SIZE := Nat.mod_lt ro (by unfold PAGE_SIZE; omega)
    unfold PAGE_SIZE at halign hlt ⊢
    omega
  · intro k hk
    have h := hwin (ro - alignedRoOf ro + k) (by omega)
    have e1 : r.claim.m_Rw + k = alignedRw + (ro - alignedRoOf ro + k) := by
      rw [hrw]; omega
    have e2 : alignedRoOf ro + (ro - alignedRoOf ro + k) = ro + k := by omega
    rw [e1, h, e2]

/-- Witness for C3: the same concrete 4-byte mirror; `0x20000` is
page-aligned and the mirror address ends up at `0x20000` with intra-page
offset `0`. -/
theorem rwPages_ctor_offset_preserving_witness :
    ∃ r, RwPagesCtor roPageMem pageQuery 0x20000 true 0x10000 4 = .ok r ∧
      r.claim.m_Rw = 0x20000 + (0x10000 - alignedRoOf 0x10000) ∧
      r.claim.m_Rw % PAGE_SIZE = 0x10000 % PAGE_SIZE ∧
      ∀ k, k < 4 →
        r.mem.vmap (r.claim.m_Rw + k) = roPageMem.vmap (0x10000 + k) :=
  rwPages_ctor_offset_preserving roPageMem pageQuery 0x20000 0x10000 4
    pageQuery_valid pageQuery_consistent (by decide)
    (by
      intro a h1 h2
      have e1 : alignedRoOf 0x10000 = 0x10000 := by decide
      have e2 : alignedSizeOf 0x10000 4 = 0x1000 := by decide
      rw [e1] at h1
      rw [e1, e2] at h2
      show (if 0x10000 ≤ a ∧ a < 0x11000 then some a else none).isSome = true
      rw [if_pos (by omega)]
      rfl)
    (by
      left
      have e1 : alignedRoOf 0x10000 = 0x10000 := by decide
      have e2 : alignedSizeOf 0x10000 4 = 0x1000 := by decide
      rw [e1, e2]
      omega)
    (by decide)

/-- C4: destroying a non-owning claim performs no cache flush, no unmap and
no reservation release and leaves the address space unchanged, while
destroying the owning claim performs the full teardown exactly once: one
data-cache flush of the rw view, one instruction-cache invalidate of the ro
view, the per-block unmap walk, and one reservation release. -/
theorem rwPages_dtor_owner_only :
    (∀ (claim : MemoryClaim) (query : Nat → MemBlock) (m : Mem),
      RwPagesDtor false claim query m = some (m, ⟨[], [], [], []⟩)) ∧
    (∀ (claim : MemoryClaim) (query : Nat → MemBlock) (m : Mem),
      ValidQuery query → ConsistentQuery query →
      ∃ calls, ForEachMemRange query claim.GetAlignedRo claim.GetAlignedSize =
          some calls ∧
        tilesFrom claim.GetAlignedRo claim.GetAlignedRo
          (claim.GetAlignedRo + claim.GetAlignedSize) calls ∧
        RwPagesDtor true claim query m =
          (unmapAll claim.GetAlignedRw m calls).map (fun m2 =>
            (m2, { dcacheFlushes := [(claim.m_Rw, claim.m_Size)],
                   icacheInvalidates := [(claim.m_Ro, claim.m_Size)],
                   unmapCalls := calls.map (fun c =>
                     (claim.GetAlignedRw + c.2.2, c.1, c.2.1)),
                   reservationReleases := [claim.m_RwReserve] }))) := by
  constructor
  · intro claim query m
    rfl
  · intro claim query m hV hC
    obtain ⟨calls, heq, htiles, _, _, _⟩ :=
      forEachAux_sound query hV hC claim.GetAlignedRo
        (claim.GetAlignedRo + claim.GetAlignedSize) (claim.GetAlignedSize + 1)
        claim.GetAlignedRo (by omega) (Or.inl ⟨rfl, by omega⟩)
    have heq' : ForEachMemRange query claim.GetAlignedRo claim.GetAlignedSize =
        some calls := heq
    refine ⟨calls, heq', htiles, ?_⟩
    unfold RwPagesDtor
    rw [if_neg (by simp), heq']

/-- Witness for C4 at a concrete owning claim over `[0x10000, 0x10004)`
with the mirror at `0x20000`. -/
theorem rwPages_dtor_owner_only_witness :
    RwPagesDtor false ⟨0x10000, 4, 0x20000, 0x20000⟩ pageQuery dualPageMem =
      some (dualPageMem, ⟨[], [], [], []⟩) ∧
    (∃ calls, ForEachMemRange pageQuery
        (MemoryClaim.GetAlignedRo ⟨0x10000, 4, 0x20000, 0x20000⟩)
        (MemoryClaim.GetAlignedSize ⟨0x10000, 4, 0x20000, 0x20000⟩) = some calls ∧
      tilesFrom (MemoryClaim.GetAlignedRo ⟨0x10000, 4, 0x20000, 0x20000⟩)
        (MemoryClaim.GetAlignedRo ⟨0x10000, 4, 0x20000, 0x20000⟩)
        (MemoryClaim.GetAlignedRo ⟨0x10000, 4, 0x20000, 0x20000⟩ +
          MemoryClaim.GetAlignedSize ⟨0x10000, 4, 0x20000, 0x20000⟩) calls ∧
      RwPagesDtor true ⟨0x10000, 4, 0x20000, 0x20000⟩ pageQuery dualPageMem =
        (unmapAll (MemoryClaim.GetAlignedRw ⟨0x10000, 4, 0x20000, 0x20000⟩)
            dualPageMem calls).map (fun m2 =>
          (m2, { dcacheFlushes := [(0x20000, 4)],
                 icacheInvalidates := [(0x10000, 4)],
                 unmapCalls := calls.map (fun c =>
                   (MemoryClaim.GetAlignedRw ⟨0x10000, 4, 0x20000, 0x20000⟩ + c.2.2,
                    c.1, c.2.1)),
                 reservationReleases := [0x20000] }))) :=
  ⟨rwPages_dtor_owner_only.1 ⟨0x10000, 4, 0x20000, 0x20000⟩ pageQuery dualPageMem,
   rwPages_dtor_owner_only.2 ⟨0x10000, 4, 0x20000, 0x20000⟩ pageQuery dualPageMem
     pageQuery_valid pageQuery_consistent⟩

/-- C5: calling `proc_handle::Get` twice returns the identical handle both
times; the acquisition algorithm (the fast path, and on its failure the IPC
fallback) runs only during the first call, and the second call neither
changes the cached state nor runs any acquisition step. -/
theorem procHandleGet_idempotent :
    ∀ (env : HandleEnv) (h s1 fast1 ipc1 : Nat),
      (∀ x, env.mesosphere = some x → x ≠ INVALID_HANDLE) →
      (∀ x, env.ipc = some x → x ≠ INVALID_HANDLE) →
      procHandleGet env INVALID_HANDLE = .ok (h, s1, fast1, ipc1) →
      s1 = h ∧ fast1 = 1 ∧
        procHandleGet env s1 = .ok (h, s1, 0, 0) := by
  intro env h s1 fast1 ipc1 hmeso hipc hfirst
  unfold procHandleGet at hfirst ⊢
  rw [if_pos rfl] at hfirst
  cases hm : env.mesosphere with
  | some x =>
    rw [hm] at hfirst
    have hx : x ≠ INVALID_HANDLE := hmeso x hm
    simp only [Except.ok.injEq, Prod.mk.injEq] at hfirst
    obtain ⟨rfl, rfl, rfl, rfl⟩ := hfirst
    refine ⟨rfl, rfl, ?_⟩
    rw [if_neg hx]
  | none =>
    rw [hm] at hfirst
    cases hi : env.ipc with
    | some x =>
      rw [hi] at hfirst
      have hx : x ≠ INVALID_HANDLE := hipc x hi
      simp only [Except.ok.injEq, Prod.mk.injEq] at hfirst
      obtain ⟨rfl, rfl, rfl, rfl⟩ := hfirst
      refine ⟨rfl, rfl, ?_⟩
      rw [if_neg hx]
    | none =>
      rw [hi] at hfirst
      exact absurd hfirst (by simp)

/-- Witness for C5 with a kernel whose fast path returns handle `5`. -/
theorem procHandleGet_idempotent_witness :
    5 = 5 ∧ 1 = 1 ∧ procHandleGet ⟨some 5, none⟩ 5 = .ok (5, 5, 0, 0) :=
  procHandleGet_idempotent ⟨some 5, none⟩ 5 5 1 0
    (by
      intro x hx
      injection hx with hh
      unfold INVALID_HANDLE
      omega)
    (by intro x hx; exact absurd hx (by simp))
    rfl

/-- C6: the sanity check as written rejects a page-aligned configuration
(`JitSize = 0x1000`, `InlinePoolSize = 0x2000`, both multiples of the page
size) and accepts a misaligned one (`InlinePoolSize = 0x800`), because the
second `static_assert` compares `ALIGN_UP(InlinePoolSize, PAGE_SIZE)`
against `JitSize` instead of against `InlinePoolSize`, contradicting its
own message "InlinePoolSize is not aligned". -/
theorem sanity_check_inline_pool_bug :
    sanityChecksHold 0x1000 0x2000 = false ∧
    sanityChecksSpec 0x1000 0x2000 = true ∧
    0x1000 % PAGE_SIZE = 0 ∧ 0x2000 % PAGE_SIZE = 0 ∧
    sanityChecksHold 0x1000 0x800 = true ∧
    sanityChecksSpec 0x1000 0x800 = false := by
  decide

/-- C7: `InitSocType` maps `Icosa` and `Copper` to `Erista`, `Hoag`,
`Iowa`, `Calcio` and `Aula` to `Mariko`, and every enumerator value
outside the known set reaches the `unreachable_()` fatal path (`none`),
never silently defaulting to either family. -/
theorem initSocType_classifies (v : Nat) :
    (InitSocType v = some SocType.Erista ↔
      v = SplHardwareType_Icosa ∨ v = SplHardwareType_Copper) ∧
    (InitSocType v = some SocType.Mariko ↔
      v = SplHardwareType_Hoag ∨ v = SplHardwareType_Iowa ∨
      v = SplHardwareType_Calcio ∨ v = SplHardwareType_Aula) ∧
    (InitSocType v = none ↔
      ¬(v = SplHardwareType_Icosa ∨ v = SplHardwareType_Copper ∨
        v = SplHardwareType_Hoag ∨ v = SplHardwareType_Iowa ∨
        v = SplHardwareType_Calcio ∨ v = SplHardwareType_Aula)) := by
  unfold InitSocType SplHardwareType_Icosa SplHardwareType_Copper
    SplHardwareType_Hoag SplHardwareType_Iowa SplHardwareType_Calcio
    SplHardwareType_Aula
  split_ifs with h1 h2 <;> simp_all <;> omega

/-- C9: for every input, the panic-message formatter produces a
null-terminated string of at most 1023 characters plus the terminator,
entirely within the 1024-byte static buffer, regardless of the lengths of
the file name and message. -/
theorem format_panic_message_bounded (file : List Char) (line : Nat)
    (msg : List Char) :
    (megaton_format_panic_message file line msg).length ≤ 1024 ∧
    (megaton_format_panic_message file line msg).getLast? = some 0 ∧
    (megaton_format_panic_message file line msg).dropLast.length ≤ 1023 := by
  unfold megaton_format_panic_message
  refine ⟨?_, List.getLast?_concat _, ?_⟩
  · rw [List.length_append, List.length_take]
    simp only [List.length_singleton]
    omega
  · rw [List.dropLast_concat, List.length_take]
    omega

/-! ### The `ALIGN_UP`/`ALIGN_DOWN` arithmetic over `uintptr_t` (C8) -/

/-- For a 64-bit value, masking with `~0xFFF` (i.e. `2^64 - 2^12`) clears
the low 12 bits: `y &&& (2^64 - 2^12) = 2^12 * (y / 2^12)`. -/
theorem land_page_mask (y : Nat) (hy : y < 2 ^ 64) :
    y &&& (2 ^ 64 - 2 ^ 12) = 2 ^ 12 * (y / 2 ^ 12) := by
  have hmask : (2 : Nat) ^ 64 - 2 ^ 12 = 2 ^ 12 * (2 ^ 52 - 1) := by norm_num
  apply Nat.eq_of_testBit_eq
  intro i
  rw [Nat.testBit_and, hmask]
  rcases Nat.lt_or_ge i 12 with h12 | h12
  · have hm : Nat.testBit (2 ^ 12 * (2 ^ 52 - 1)) i = false := by
      rw [Nat.testBit_mul_pow_two]
      simp only [ge_iff_le, Bool.and_eq_false_imp, decide_eq_true_eq]
      omega
    have hr : Nat.testBit (2 ^ 12 * (y / 2 ^ 12)) i = false := by
      rw [Nat.testBit_mul_pow_two]
      simp only [ge_iff_le, Bool.and_eq_false_imp, decide_eq_true_eq]
      omega
    rw [hm, hr, Bool.and_false]
  · rcases Nat.lt_or_ge i 64 with h64 | h64
    · have hm : Nat.testBit (2 ^ 12 * (2 ^ 52 - 1)) i = true := by
        rw [Nat.testBit_mul_pow_two, Nat.testBit_two_pow_sub_one]
        have hd1 : decide (i ≥ 12) = true := by simp [h12]
        have hd2 : decide (i - 12 < 52) = true := by simp; omega
        rw [hd1, hd2, Bool.true_and]
      have hr : Nat.testBit (2 ^ 12 * (y / 2 ^ 12)) i = Nat.testBit y i := by
        rw [Nat.testBit_mul_pow_two]
        have hd1 : decide (i ≥ 12) = true := by simp [h12]
        rw [hd1, Bool.true_and, ← Nat.shiftRight_eq_div_pow, Nat.testBit_shiftRight]
        congr 1
        omega
      rw [hm, hr, Bool.and_true]
    · have h1 : Nat.testBit y i = false :=
        Nat.testBit_lt_two_pow (lt_of_lt_of_le hy (Nat.pow_le_pow_right (by omega) h64))
      have h2 : Nat.testBit (2 ^ 12 * (y / 2 ^ 12)) i = false := by
        apply Nat.testBit_lt_two_pow
        calc 2 ^ 12 * (y / 2 ^ 12) ≤ y := by
              rw [Nat.mul_comm]
              exact Nat.div_mul_le_self y (2 ^ 12)
          _ < 2 ^ 64 := hy
          _ ≤ 2 ^ i := Nat.pow_le_pow_right (by omega) h64
      rw [h1, h2, Bool.false_and]

/-- Macro `ALIGN_DOWN(x, PAGE_SIZE)` on a 64-bit value clears the low 12 bits. -/
theorem ALIGN_DOWN_page (x : Nat) (hx : x < 2 ^ 64) :
    ALIGN_DOWN x PAGE_SIZE = 2 ^ 12 * (x / 2 ^ 12) := by
  unfold ALIGN_DOWN PAGE_SIZE UINTPTR_SIZE
  rw [Nat.mod_eq_of_lt hx]
  have hmask : (2 ^ 64 - 1 : Nat) - (0x1000 - 1) = 2 ^ 64 - 2 ^ 12 := by norm_num
  rw [hmask, land_page_mask x hx]

/-- Macro `ALIGN_UP(x, PAGE_SIZE)` equals the low-bit clearing of the (wrapping)
sum `x + 0xFFF`. -/
theorem ALIGN_UP_page (x : Nat) :
    ALIGN_UP x PAGE_SIZE = 2 ^ 12 * (((x + 0xFFF) % 2 ^ 64) / 2 ^ 12) := by
  unfold ALIGN_UP PAGE_SIZE UINTPTR_SIZE
  have hlt : (x + (0x1000 - 1)) % 2 ^ 64 < 2 ^ 64 := Nat.mod_lt _ (by norm_num)
  have hmask : (2 ^ 64 - 1 : Nat) - (0x1000 - 1) = 2 ^ 64 - 2 ^ 12 := by norm_num
  rw [hmask, land_page_mask _ hlt]

/-- Modelled from the spec: the constructor's derived `aligned_ro`
(rw_pages.hpp is not among the sources), computed with the `ALIGN_DOWN`
macro of the common header over the requested base. -/
def derivedAlignedRo (ro : Nat) : Nat := ALIGN_DOWN ro PAGE_SIZE

/-- Modelled from the spec: the constructor's derived `aligned_size`, the
page-aligned span covering the requested range, computed with the
`ALIGN_UP` macro of the common header over `size + (ro - aligned_ro)` in
`uintptr_t` arithmetic. -/
def derivedAlignedSize (ro size : Nat) : Nat :=
  ALIGN_UP (size + (ro % UINTPTR_SIZE - derivedAlignedRo ro)) PAGE_SIZE

/-- C8 counterexample: at `ro_base = 0`, `size = 2^64 - 1` the macro
computation wraps modulo `2^64` and the derived aligned size is `0`, which
is smaller than `size`; the claim's `aligned_size ≥ size` does not hold for
every `ro_base` and `size`. -/
theorem alignedSize_overflow_counterexample :
    derivedAlignedSize 0 (2 ^ 64 - 1) = 0 ∧
    ¬(2 ^ 64 - 1 ≤ derivedAlignedSize 0 (2 ^ 64 - 1)) := by
  constructor
  · decide
  · decide

/-- C8 (amended): for all `uintptr_t` inputs the derived `aligned_size` is
a multiple of the page size `0x1000` and `aligned_ro ≤ ro_base`
(including `size = 0` and sizes spanning a page boundary), and
`aligned_size ≥ size` holds whenever the `ALIGN_UP` computation does not
wrap 64 bits, i.e. `size + ro_base % 0x1000 + 0xFFF < 2^64`. -/
theorem align_arith_invariants (ro size : Nat) (hro : ro < 2 ^ 64)
    (hsize : size < 2 ^ 64) :
    PAGE_SIZE ∣ derivedAlignedSize ro size ∧
    derivedAlignedRo ro ≤ ro ∧
    (size + ro % PAGE_SIZE + (PAGE_SIZE - 1) < 2 ^ 64 →
      size ≤ derivedAlignedSize ro size) := by
  have hp12 : (2 : Nat) ^ 12 = 4096 := by norm_num
  have hdown : derivedAlignedRo ro = 2 ^ 12 * (ro / 2 ^ 12) :=
    ALIGN_DOWN_page ro hro
  have hros : ro % UINTPTR_SIZE = ro := by
    unfold UINTPTR_SIZE
    exact Nat.mod_eq_of_lt hro
  have hup : derivedAlignedSize ro size =
      2 ^ 12 * (((size + (ro % UINTPTR_SIZE - derivedAlignedRo ro) + 0xFFF) % 2 ^ 64) /
        2 ^ 12) := by
    unfold derivedAlignedSize
    rw [ALIGN_UP_page]
  refine ⟨?_, ?_, ?_⟩
  · rw [hup]
    exact ⟨_, by unfold PAGE_SIZE; rw [← hp12]⟩
  · rw [hdown, hp12]
    omega
  · intro hnw
    unfold PAGE_SIZE at hnw
    rw [hup, hros, hdown, hp12]
    rw [hp12] at hdown
    have hsub : ro - 4096 * (ro / 4096) = ro % 4096 := by omega
    rw [hsub]
    have hmod : (size + ro % 4096 + 0xFFF) % 2 ^ 64 = size + ro % 4096 + 0xFFF := by
      apply Nat.mod_eq_of_lt
      omega
    rw [hmod]
    omega

/-- Witness for the amended C8 at `ro_base = 0x12345`, `size = 0x1000`
(a size spanning a page boundary from that base). -/
theorem align_arith_invariants_witness :
    PAGE_SIZE ∣ derivedAlignedSize 0x12345 0x1000 ∧
    derivedAlignedRo 0x12345 ≤ 0x12345 ∧
    0x1000 ≤ derivedAlignedSize 0x12345 0x1000 :=
  ⟨(align_arith_invariants 0x12345 0x1000 (by decide) (by decide)).1,
   (align_arith_invariants 0x12345 0x1000 (by decide) (by decide)).2.1,
   (align_arith_invariants 0x12345 0x1000 (by decide) (by decide)).2.2 (by decide)⟩

end Megaton
